import Mathlib

/-!
Verification of the zcaro-online game server core (gameLogic / gameManager /
elo modules).  The JavaScript sources are shallowly embedded: JS arrays become
lists, `null`/`undefined` become `Option`, machine numbers become `Int`/`Nat`
(all quantities here are small integers), and `Math.random()` is modelled by
an oracle parameter supplying the random draws, so every theorem quantifies
over all possible random streams.  JS array indexing `a[i]`, which yields
`undefined` out of bounds, is modelled by `jsGet`; subscripting `undefined`
(a thrown `TypeError`) is modelled by an explicit `.thrown` result.
-/

namespace ZCaro

/-! ## Board rules (src: gameLogic.js, 17x17 variant) -/

def BOARD_SIZE : Nat := 17

abbrev Cell := Int × Int
abbrev BoardRow := List (Option String)
abbrev Board := List BoardRow

/-- JS `a[i]`: `undefined` (here `none`) when the index is out of range. -/
def jsGet {α : Type} (l : List α) (i : Int) : Option α :=
  if h : 0 ≤ i ∧ i.toNat < l.length then some (l.get ⟨i.toNat, h.2⟩) else none

def createEmptyBoard : Board :=
  List.replicate BOARD_SIZE (List.replicate BOARD_SIZE none)

/-- `board[r][c]` flattened to the stone (if any): `null`/`undefined`/missing
row all read as `none`, which is exactly how the guarded comparisons
`board[r][c] === player` behave in the source. -/
def getCell (b : Board) (r c : Int) : Option String :=
  match jsGet b r with
  | none => none
  | some row => (jsGet row c).join

/-- Manhattan distance, as in the source's `Math.abs(..) + Math.abs(..)`. -/
def manhattan (a b : Cell) : Int := |a.1 - b.1| + |a.2 - b.2|

/-- src: `isLockedCell(lockedCells, row, col)`. -/
def isLockedCell (locked : List Cell) (row col : Int) : Bool :=
  locked.any fun lc => lc.1 == row && lc.2 == col

def inBoundsB (r c : Int) : Bool :=
  decide (0 ≤ r ∧ r < (BOARD_SIZE : Int) ∧ 0 ≤ c ∧ c < (BOARD_SIZE : Int))

/-- One step of `checkWinner`'s walk: the probed cell is in bounds and holds
the player's symbol. -/
def stepOK (b : Board) (p : String) (r c : Int) : Bool :=
  inBoundsB r c && (getCell b r c == some p)

/-- The walk loop of `checkWinner` in one direction: starting at offset `i`
from the placed cell, collect up to `fuel` further cells while `stepOK`
holds (the source runs `i = 1..4`, i.e. `fuel = 4` from `i = 1`). -/
def scanFrom (b : Board) (p : String) (row col dx dy : Int) : Nat → Nat → List Cell
  | _, 0 => []
  | i, fuel + 1 =>
    let r := row + dx * (i : Int)
    let c := col + dy * (i : Int)
    if stepOK b p r c then (r, c) :: scanFrom b p row col dx dy (i + 1) fuel
    else []

/-- The cell list assembled by `checkWinner` for one direction: negative-side
cells were `unshift`ed (so they appear reversed, negative-to-positive),
then the placed cell, then the positive-side cells. -/
def lineCells (b : Board) (p : String) (row col dx dy : Int) : List Cell :=
  (scanFrom b p row col (-dx) (-dy) 1 4).reverse ++ (row, col) :: scanFrom b p row col dx dy 1 4

def dirList : List (Int × Int) := [(0, 1), (1, 0), (1, 1), (1, -1)]

def dirCheck (b : Board) (row col : Int) (p : String) (dx dy : Int) : Option (List Cell) :=
  if 5 ≤ (lineCells b p row col dx dy).length then some (lineCells b p row col dx dy) else none

/-- src: `checkWinner(board, row, col, player)`; the `for` loop over the four
directions returning the first qualifying cell list is unrolled. -/
def checkWinner (b : Board) (row col : Int) (p : String) : Option (List Cell) :=
  (dirCheck b row col p 0 1) <|> ((dirCheck b row col p 1 0) <|>
    ((dirCheck b row col p 1 1) <|> (dirCheck b row col p 1 (-1))))

/-- src: `isBoardFull(board)`. -/
def isBoardFull (b : Board) : Bool :=
  b.all fun row => row.all fun cell => cell.isSome

/-! ### Locked-cell generation (src: gameLogic.js `generateLockedCells`)

The randomized search is embedded with `Math.random()` replaced by an oracle
`rand : Nat → Nat → Nat` giving, for each attempt number and each shuffle
step, the drawn value; `Math.floor(Math.random() * (i + 1))`, always in
`[0, i]`, is recovered as `rand .. .. % (i + 1)`. -/

def centerIdx : Nat := BOARD_SIZE / 2
def centerRadius : Nat := 5
/-- `Math.max(0, center - centerRadius)` (Nat subtraction truncates at 0). -/
def minRowC : Nat := centerIdx - centerRadius
def maxRowC : Nat := min (BOARD_SIZE - 1) (centerIdx + centerRadius)

/-- The central candidate box, in the source's row-major generation order. -/
def candidatesArr : List Cell :=
  (List.range' minRowC (maxRowC + 1 - minRowC)).flatMap fun r =>
    (List.range' minRowC (maxRowC + 1 - minRowC)).map fun c => ((r : Int), (c : Int))

/-- `arr[i] ↔ arr[j]` swap on a list (both indices are always in range at the
source's call sites; the fallback branch is a harmless totalization). -/
def swapIdx {α : Type} (l : List α) (i j : Nat) : List α :=
  match l.get? i, l.get? j with
  | some a, some b => (l.set i b).set j a
  | _, _ => l

/-- The Fisher-Yates loop body of `shuffle`: runs indices `i, i-1, .., 1`,
`k` counts the `Math.random()` draws made so far. -/
def fyGo {α : Type} (rand : Nat → Nat) : List α → Nat → Nat → List α
  | l, 0, _ => l
  | l, i + 1, k => fyGo rand (swapIdx l (i + 1) (rand k % (i + 2))) i (k + 1)

/-- src: the local `shuffle(arr)` (in-place Fisher-Yates). -/
def shuffleList {α : Type} (rand : Nat → Nat) (l : List α) : List α :=
  fyGo rand l (l.length - 1) 0

def minDistance : Int := 5
def maxGap : Int := 9
def maxAttempts : Nat := 5000

/-- The greedy selection pass over the shuffled candidates: push the first
cell, then push each cell not too close to all chosen so far, stopping at 3. -/
def pickCells : List Cell → List Cell → List Cell
  | [], chosen => chosen
  | pos :: rest, chosen =>
    if chosen.length = 0 then pickCells rest (chosen ++ [pos])
    else
      let tooClose := chosen.any fun c => manhattan c pos < minDistance
      let chosen' := if tooClose then chosen else chosen ++ [pos]
      if chosen'.length = 3 then chosen' else pickCells rest chosen'

/-- The deterministic fallback placement used when the random search fails. -/
def fallbackLocked : List Cell :=
  ([((0 : Int), (-5 : Int)), (5, 0), (0, 5)].map
      fun d => ((centerIdx : Int) + d.1, (centerIdx : Int) + d.2)).filter
    fun rc => decide (0 ≤ rc.1 ∧ rc.1 < (BOARD_SIZE : Int) ∧ 0 ≤ rc.2 ∧ rc.2 < (BOARD_SIZE : Int))

/-- The `while (attempts < maxAttempts)` loop of `generateLockedCells`:
`candidates` is the candidate box computed once before the loop, and the
source's `d01`/`d02`/`d12` distance names are inlined. -/
def lockedLoop (rand : Nat → Nat → Nat) (candidates : List Cell) (attempt : Nat) :
    Nat → List Cell
  | 0 => fallbackLocked
  | fuel + 1 =>
    match pickCells (shuffleList (rand attempt) candidates) [] with
    | [a, b, c] =>
      if minDistance ≤ manhattan a b ∧ minDistance ≤ manhattan a c ∧
          minDistance ≤ manhattan b c ∧ manhattan a b ≤ maxGap ∧
          manhattan a c ≤ maxGap ∧ manhattan b c ≤ maxGap then [a, b, c]
      else lockedLoop rand candidates (attempt + 1) fuel
    | _ => lockedLoop rand candidates (attempt + 1) fuel

/-- src: `generateLockedCells()`; `rand` is the randomness oracle. -/
def generateLockedCells (rand : Nat → Nat → Nat) : List Cell :=
  lockedLoop rand candidatesArr 0 maxAttempts

/-- src: `getValidFirstMoveCells(lockedCells)`; the JS `Set` of string keys
keeps first-insertion order and deduplicates, modelled by `insertUnique`. -/
def insertUnique (l : List Cell) (x : Cell) : List Cell :=
  if x ∈ l then l else l ++ [x]

def neighborDirs : List (Int × Int) :=
  [(-1, -1), (-1, 0), (-1, 1), (0, -1), (0, 1), (1, -1), (1, 0), (1, 1)]

def getValidFirstMoveCells (locked : List Cell) : List Cell :=
  (locked.flatMap fun lc =>
    neighborDirs.filterMap fun d =>
      let nr := lc.1 + d.1
      let nc := lc.2 + d.2
      if decide (0 ≤ nr ∧ nr < (BOARD_SIZE : Int) ∧ 0 ≤ nc ∧ nc < (BOARD_SIZE : Int)) ∧
          ¬ (isLockedCell locked nr nc = true) then some (nr, nc)
      else none).foldl insertUnique []

/-! ## Session state machine (src: gameManager.js)

Wall-clock fields (`createdAt`, queue logging) and the spectator list are
irrelevant to every operation verified here and are omitted from the record;
`private` is renamed `privateRoom` (Lean keyword). -/

structure PlayerRec where
  id : String
  socketId : String
  symbol : String
  name : String
  avatar : Option String
deriving DecidableEq, Repr

/-- The caller-supplied participant info consumed by `createRoom`/`joinRoom`
(`rated`/`private` are optional flags, absent unless the caller set them). -/
structure PlayerInput where
  id : String
  socketId : String
  name : String
  avatar : Option String
  rated : Option Bool
  privateFlag : Option Bool
deriving DecidableEq, Repr

structure GameState where
  roomId : String
  board : Board
  player1 : PlayerRec
  player2 : Option PlayerRec
  currentTurn : String
  status : String
  winner : Option String
  lockedCells : List Cell
  validFirstMoveCells : List Cell
  moveCount : Nat
  firstStarterSymbol : Option String
  firstStarterPos : Option Cell
  winningCells : List Cell
  lastStarter : Option String
  rated : Bool
  privateRoom : Bool
deriving DecidableEq, Repr

/-- src: `createRoom(roomId, player1)`. -/
def createRoom (rand : Nat → Nat → Nat) (roomId : String) (p1 : PlayerInput) : GameState :=
  let lockedCells := generateLockedCells rand
  { roomId := roomId
    board := createEmptyBoard
    player1 := ⟨p1.id, p1.socketId, "X", p1.name, p1.avatar⟩
    player2 := none
    currentTurn := "X"
    status := "waiting"
    winner := none
    lockedCells := lockedCells
    validFirstMoveCells := getValidFirstMoveCells lockedCells
    moveCount := 0
    firstStarterSymbol := none
    firstStarterPos := none
    winningCells := []
    lastStarter := none
    rated := if p1.rated = some false then false else true
    privateRoom := if p1.privateFlag = some true then true else false }

/-- src: `joinRoom(roomId, player2)`; `none` models both a missing room and
the `status !== "waiting"` rejection (the source returns `null`). -/
def joinRoom (gs : Option GameState) (p2 : PlayerInput) : Option GameState :=
  match gs with
  | none => none
  | some g =>
    if g.status ≠ "waiting" then none
    else some { g with player2 := some ⟨p2.id, p2.socketId, "O", p2.name, p2.avatar⟩ }

/-- src: `resetRoom(roomId)`; regenerates locked cells, clears the board and
opening bookkeeping, and alternates the starter. -/
def resetRoom (rand : Nat → Nat → Nat) (gs : Option GameState) : Option GameState :=
  match gs with
  | none => none
  | some g =>
    let lockedCells := generateLockedCells rand
    let nextStarter :=
      match g.lastStarter with
      | some s => if s = "X" then "O" else "X"
      | none => "X"
    some { g with
      board := createEmptyBoard
      lockedCells := lockedCells
      validFirstMoveCells := getValidFirstMoveCells lockedCells
      moveCount := 0
      firstStarterSymbol := none
      firstStarterPos := none
      currentTurn := nextStarter
      lastStarter := some nextStarter
      status := "playing"
      winner := none
      winningCells := [] }

/-- src: `forfeit(roomId, loserSocketId)` (both-players-present branch). -/
def forfeit (gs : Option GameState) (loserSocketId : String) : Option GameState :=
  match gs with
  | none => none
  | some g =>
    match g.player2 with
    | none => some { g with status := "finished", winner := none, winningCells := [] }
    | some p2 =>
      let winnerSymbol := if g.player1.socketId = loserSocketId then p2.symbol else g.player1.symbol
      some { g with status := "finished", winner := some winnerSymbol, winningCells := [] }

/-- Result of a `makeMove` call: a returned `{ error: msg }`, a thrown JS
`TypeError`, or a success (`isWinner`/`isDraw` mirror the returned flags). -/
inductive MoveResp where
  | err (msg : String)
  | thrown
  | ok (isWinner : Bool) (isDraw : Bool)
deriving DecidableEq, Repr

/-- The player-slot resolution ternary at the top of `makeMove`. -/
def resolvePlayer (g : GameState) (socketId : String) : Option PlayerRec :=
  if g.player1.socketId = socketId then some g.player1
  else
    match g.player2 with
    | some p2 => if p2.socketId = socketId then some p2 else none
    | none => none

/-- `gameState.board[row][col] = symbol` (indices are in bounds whenever the
source reaches this assignment, the occupancy check having succeeded). -/
def setCell (b : Board) (row col : Int) (v : Option String) : Board :=
  match jsGet b row with
  | none => b
  | some r => b.set row.toNat (r.set col.toNat v)

/-- The piece-counting loop of the Open-4 block. -/
def countSymbol (b : Board) (sym : String) : Nat :=
  (b.map fun row => (row.filter fun c => c = some sym).length).sum

def isValidFirstMoveB (g : GameState) (row col : Int) : Bool :=
  g.validFirstMoveCells.any fun vc => vc.1 == row && vc.2 == col

def lockedMsg : String := "Không thể đi vào ô cấm!"
def occupiedMsg : String := "Cell already occupied"
def firstMoveMsg : String := "Lượt đầu tiên phải đi vào các ô xung quanh ô cấm!"
def openFourMsg : String := "Open-4: Nước đi thứ 2 cần cách nước đi đầu tiên ít nhất 4 ô cờ."

/-- The state mutations at the top of `makeMove`'s success path: place the
stone, record the round's first stone, bump `moveCount`. -/
def placedState (g : GameState) (player : PlayerRec) (row col : Int) : GameState :=
  { g with
    board := setCell g.board row col (some player.symbol)
    firstStarterSymbol := if g.moveCount = 0 then some player.symbol else g.firstStarterSymbol
    firstStarterPos := if g.moveCount = 0 then some (row, col) else g.firstStarterPos
    moveCount := g.moveCount + 1 }

/-- The tail of `makeMove` after all validation passed: mutate the state,
then run the win / draw / turn-switch logic. -/
def placeMove (g : GameState) (player : PlayerRec) (row col : Int) : MoveResp × Option GameState :=
  match checkWinner (placedState g player row col).board row col player.symbol with
  | some winning =>
    (.ok true false,
      some { placedState g player row col with
        status := "finished", winner := some player.symbol, winningCells := winning })
  | none =>
    if isBoardFull (placedState g player row col).board then
      (.ok false true,
        some { placedState g player row col with
          status := "finished", winner := some "draw", winningCells := [] })
    else
      (.ok false false,
        some { placedState g player row col with
          currentTurn := if (placedState g player row col).currentTurn = "X" then "O" else "X" })

/-- The Open-4 (opening-distance) block of `makeMove` (`symbolCount` is the
mover's piece count, `firstPos` the guarded `firstStarterPos` read). -/
def openFourCheck (g : GameState) (player : PlayerRec) (row col : Int) : MoveResp × Option GameState :=
  if countSymbol g.board player.symbol = 1 ∧ g.firstStarterSymbol = some player.symbol then
    match (if g.firstStarterPos.isSome ∧ g.firstStarterSymbol = some player.symbol
           then g.firstStarterPos else none) with
    | some fp =>
      if manhattan fp (row, col) < 5 then (.err openFourMsg, some g)
      else placeMove g player row col
    | none => placeMove g player row col
  else placeMove g player row col

/-- src: `makeMove(roomId, socketId, row, col)`; the room lookup is modelled
by the `Option GameState` argument, and the pair's second component is the
room state after the call (errors return before any mutation). -/
def makeMove (gs : Option GameState) (socketId : String) (row col : Int) :
    MoveResp × Option GameState :=
  match gs with
  | none => (.err "Invalid game state", none)
  | some g =>
    if g.status ≠ "playing" then (.err "Invalid game state", some g)
    else
      match resolvePlayer g socketId with
      | none => (.err "Player not in this room", some g)
      | some player =>
        if g.currentTurn ≠ player.symbol then (.err "Not your turn", some g)
        else if isLockedCell g.lockedCells row col then (.err lockedMsg, some g)
        else
          match jsGet g.board row with
          | none => (.thrown, some g)
          | some brow =>
            if jsGet brow col ≠ some none then (.err occupiedMsg, some g)
            else if g.moveCount = 0 ∧ player.symbol = "X" ∧ ¬ (isValidFirstMoveB g row col = true)
            then (.err firstMoveMsg, some g)
            else openFourCheck g player row col

/-! ## Matchmaking queue (src: gameManager.js `findMatch`)

The `waitingPlayers` map iterates in insertion order and is modelled as an
association list; `Date.now()` is the explicit `now` argument. -/

structure WaitingEntry where
  name : String
  elo : Option Int
  enqueuedAt : Int
deriving DecidableEq, Repr

/-- src: the local `getDeltaForWait(waitSeconds)` step function. -/
def getDeltaForWait (waitSeconds : Int) : Int :=
  if waitSeconds ≤ 10 then 50
  else if waitSeconds ≤ 20 then 100
  else if waitSeconds ≤ 30 then 200
  else if waitSeconds ≤ 45 then 300
  else if waitSeconds ≤ 60 then 400
  else 600

/-- `Math.floor((now - (e.enqueuedAt || now)) / 1000)` — floor division, with
the JS falsy-zero guard on the timestamp. -/
def waitSecOf (now : Int) (e : WaitingEntry) : Int :=
  Int.fdiv (now - (if e.enqueuedAt = 0 then now else e.enqueuedAt)) 1000

/-- `typeof elo === "number" ? elo : 1200`. -/
def eloOf (e : WaitingEntry) : Int := e.elo.getD 1200

/-- The candidate-acceptance test of `findMatch`'s loop body:
`diff <= Math.max(allowedRequester, allowedOther)`. -/
def canMatch (now : Int) (a b : WaitingEntry) : Bool :=
  |eloOf a - eloOf b| ≤ max (getDeltaForWait (waitSecOf now a)) (getDeltaForWait (waitSecOf now b))

/-- The best-candidate scan of `findMatch` (`best` carries the stored entry
with its diff; `none` is the initial `bestDiff = Infinity`). -/
def findMatchScan (now : Int) (reqId : String) (req : WaitingEntry) :
    List (String × WaitingEntry) → Option ((String × WaitingEntry) × Int) →
    Option (String × WaitingEntry)
  | [], acc => acc.map (·.1)
  | (oid, o) :: rest, acc =>
    if oid = reqId then findMatchScan now reqId req rest acc
    else
      let diff := |eloOf req - eloOf o|
      let improves : Bool :=
        match acc with
        | none => true
        | some (_, bd) => decide (diff < bd)
      if canMatch now req o && improves then
        findMatchScan now reqId req rest (some ((oid, o), diff))
      else findMatchScan now reqId req rest acc

/-- src: `findMatch(socketId)` up to the room-id synthesis / dequeue side
effects: returns the matched opponent, `none` when unqueued or unmatched. -/
def findMatch (now : Int) (queue : List (String × WaitingEntry)) (reqId : String) :
    Option (String × WaitingEntry) :=
  match queue.lookup reqId with
  | none => none
  | some req => findMatchScan now reqId req queue none

/-! ## Rating updater (src: elo.js)

`Math.pow` / float arithmetic is modelled over `ℝ` and `Math.round x` as
`round x = ⌊x + 1/2⌋`, which agrees with JS rounding. -/

noncomputable def expectedRating (rA rB : ℝ) : ℝ :=
  1 / (1 + (10 : ℝ) ^ ((rB - rA) / 400))

/-- src: `newRating(rA, rB, scoreA, k)` (the `k = 32` default is always
overridden at the call sites verified here). -/
noncomputable def newRating (rA rB scoreA k : ℝ) : ℤ :=
  round (rA + k * (scoreA - expectedRating rA rB))

/-- src: `getKFactor(gamesPlayed)`. -/
def getKFactor (gamesPlayed : Nat) : ℝ :=
  if gamesPlayed < 30 then 40 else 32

/-- The fields of a persisted user record consumed by `updateEloForMatch`. -/
structure EloUser where
  elo : Option Int
  gamesPlayed : Option Nat
deriving DecidableEq, Repr

/-- `userA.elo || 1200` (JS: an absent or zero rating falls back to 1200). -/
def beforeOf (u : EloUser) : Int :=
  match u.elo with
  | some e => if e = 0 then 1200 else e
  | none => 1200

/-- The rating computation of `updateEloForMatch` (persistence and event
emission are external side effects; `winnerIsA`/`winnerIsB` mirror the
`winnerSocketId === socketA/B` comparisons).  Returns the two new ratings,
or `none` when no winner information was supplied. -/
noncomputable def updateEloForMatch (uA uB : EloUser) (winnerIsA winnerIsB isDraw : Bool) :
    Option (Int × Int) :=
  let beforeA := beforeOf uA
  let beforeB := beforeOf uB
  let scores : Option (ℝ × ℝ) :=
    if isDraw then some (0.5, 0.5)
    else if winnerIsA then some (1, 0)
    else if winnerIsB then some (0, 1)
    else none
  match scores with
  | none => none
  | some (scoreA, scoreB) =>
    let kA := getKFactor (uA.gamesPlayed.getD 0)
    let kB := getKFactor (uB.gamesPlayed.getD 0)
    some (newRating beforeA beforeB scoreA kA, newRating beforeB beforeA scoreB kB)

/-! ## Specification-side notions used in theorem statements -/

/-- A contiguous same-symbol chain of `k` cells next to the placed cell in
direction `(dx, dy)`: every probe at offsets `1..k` is in bounds and holds
`p`. -/
def chainOK (b : Board) (p : String) (row col dx dy : Int) (k : Nat) : Prop :=
  ∀ m : Nat, 1 ≤ m → m ≤ k → stepOK b p (row + dx * (m : Int)) (col + dy * (m : Int)) = true

/-- The cells at offsets `-a .. c` from `(row, col)` along `(dx, dy)`, in
negative-to-positive board order. -/
def segment (row col dx dy : Int) (a c : Nat) : List Cell :=
  (List.range (a + c + 1)).map fun j : Nat =>
    (row + dx * ((j : Int) - (a : Int)), col + dy * ((j : Int) - (a : Int)))

/-- Some orientation carries a contiguous same-symbol run of length ≥ 5
through the placed cell (`a` cells on the negative side, `c` on the
positive side, plus the placed cell itself). -/
def runExists (b : Board) (p : String) (row col : Int) : Prop :=
  ∃ d ∈ dirList, ∃ a c : Nat, 4 ≤ a + c ∧
    chainOK b p row col (-d.1) (-d.2) a ∧ chainOK b p row col d.1 d.2 c

/-- Count of occupied, non-locked cells in one row, `c0` the column index of
the row's first entry. -/
def rowHitsFrom (locked : List Cell) (r : Int) : Int → BoardRow → Nat
  | _, [] => 0
  | c, v :: rest =>
    (if v.isSome && !(isLockedCell locked r c) then 1 else 0) + rowHitsFrom locked r (c + 1) rest

/-- Count of occupied, non-locked cells on the board, `r0` the row index of
the first row. -/
def boardHitsFrom (locked : List Cell) : Int → Board → Nat
  | _, [] => 0
  | r, row :: rest => rowHitsFrom locked r 0 row + boardHitsFrom locked (r + 1) rest

/-- The number of non-empty, non-locked cells of a room's board. -/
def occupiedUnlockedCount (g : GameState) : Nat := boardHitsFrom g.lockedCells 0 g.board

/-- Run a list of `(socketId, row, col)` move requests through `makeMove`,
returning the final room state and the number of accepted placements. -/
def applyMoves : Option GameState → List (String × Int × Int) → Option GameState × Nat
  | gs, [] => (gs, 0)
  | gs, (s, r, c) :: rest =>
    let step := makeMove gs s r c
    let done := applyMoves step.2 rest
    (done.1, (match step.1 with | .ok _ _ => 1 | _ => 0) + done.2)

/-- A fresh room: just created, or just reset for a new round. -/
def FreshRoom (g0 : GameState) : Prop :=
  (∃ rand roomId p1, g0 = createRoom rand roomId p1) ∨
  (∃ rand g, resetRoom rand (some g) = some g0)

/-- The postcondition claimed for the locked-cell generator: exactly 3
pairwise-distinct, in-bounds cells, pairwise at least `minDistance` apart. -/
def lockedSpec (cells : List Cell) : Prop :=
  cells.length = 3 ∧
  cells.Pairwise (fun a b => a ≠ b ∧ minDistance ≤ manhattan a b) ∧
  ∀ rc ∈ cells, 0 ≤ rc.1 ∧ rc.1 < (BOARD_SIZE : Int) ∧ 0 ≤ rc.2 ∧ rc.2 < (BOARD_SIZE : Int)

/-! ## Concrete rooms used by witnesses and counterexamples

`randG` is one concrete randomness oracle; under it the first attempt of the
generator succeeds with locked cells `[(3,3), (3,8), (8,5)]` (checked by
evaluation below), so all rooms below are concrete reachable states:
create → join → start (reset) → optionally a second start, then moves. -/

def randG : Nat → Nat → Nat := fun _ k =>
  let i := 120 - k
  if i = 57 then 2 else if i = 5 then 1 else i

def pIn (n : String) : PlayerInput := ⟨n, n, n, none, none, none⟩

def gWait : GameState := createRoom randG "r" (pIn "s1")
def gJoined : Option GameState := joinRoom (some gWait) (pIn "s2")
def gRound1 : Option GameState := resetRoom randG gJoined
def gRound2 : Option GameState := resetRoom randG gRound1

def mvState (gs : Option GameState) (s : String) (r c : Int) : Option GameState :=
  (makeMove gs s r c).2

/-- Ten accepted moves of round 1: X builds (2,2), (2,7), (2,6), (2,5), (2,4)
(the second at Manhattan distance 5 from the first, as Open-4 requires)
while O scatters along row 15; X to move, about to win with (2,3). -/
def winPre : Option GameState :=
  mvState (mvState (mvState (mvState (mvState (mvState (mvState (mvState (mvState (mvState
    gRound1 "s1" 2 2) "s2" 15 0) "s1" 2 7) "s2" 15 2) "s1" 2 6) "s2" 15 4)
    "s1" 2 5) "s2" 15 6) "s1" 2 4) "s2" 15 8

def winPreG : GameState := winPre.getD gWait
def winPostG : GameState := (makeMove winPre "s1" 2 3).2.getD gWait

/-- Round 1 after X's opening stone (2,2) and O's reply: X's second stone is
subject to the opening-distance rule. -/
def secondMovePre : Option GameState := mvState (mvState gRound1 "s1" 2 2) "s2" 15 0
def secondMovePreG : GameState := secondMovePre.getD gWait

def gRound1G : GameState := gRound1.getD gWait
def gRound2G : GameState := gRound2.getD gWait
def gJoinedG : GameState := gJoined.getD gWait

/-- The move list of `winPre` plus the winning move, used to instantiate the
move-count invariant. -/
def demoMoves : List (String × Int × Int) :=
  [("s1", 2, 2), ("s2", 15, 0), ("s1", 2, 7), ("s2", 15, 2), ("s1", 2, 6), ("s2", 15, 4),
   ("s1", 2, 5), ("s2", 15, 6), ("s1", 2, 4), ("s2", 15, 8), ("s1", 2, 3)]

/-- Row 2 of `secondMovePreG`'s board: only X's opening stone at column 2. -/
def demoRow2 : BoardRow := (List.replicate 17 (none : Option String)).set 2 (some "X")

/-- An all-empty board row. -/
def emptyRow : BoardRow := List.replicate 17 (none : Option String)

/-! ## Walk characterization for `checkWinner` -/

theorem scanFrom_spec (b : Board) (p : String) (row col dx dy : Int) :
    ∀ (fuel i : Nat), ∃ k : Nat, k ≤ fuel ∧
      scanFrom b p row col dx dy i fuel =
        (List.range' i k).map (fun m : Nat => (row + dx * (m : Int), col + dy * (m : Int))) ∧
      (∀ m : Nat, i ≤ m → m < i + k →
        stepOK b p (row + dx * (m : Int)) (col + dy * (m : Int)) = true) ∧
      (k < fuel →
        stepOK b p (row + dx * ((i + k : Nat) : Int)) (col + dy * ((i + k : Nat) : Int)) = false) := by
  intro fuel
  induction fuel with
  | zero =>
    intro i
    refine ⟨0, le_rfl, rfl, ?_, ?_⟩
    · intro m h1 h2; omega
    · intro h; omega
  | succ fuel ih =>
    intro i
    by_cases hs : stepOK b p (row + dx * (i : Int)) (col + dy * (i : Int)) = true
    · obtain ⟨k, hk, heq, hall, hstop⟩ := ih (i + 1)
      refine ⟨k + 1, by omega, ?_, ?_, ?_⟩
      · rw [scanFrom]
        simp only [hs, if_true]
        rw [heq, List.range'_succ, List.map_cons]
      · intro m h1 h2
        rcases Nat.eq_or_lt_of_le h1 with h | h
        · exact h ▸ hs
        · exact hall m (by omega) (by omega)
      · intro h
        have harg : i + (k + 1) = (i + 1) + k := by omega
        rw [harg]
        exact hstop (by omega)
    · refine ⟨0, by omega, ?_, ?_, ?_⟩
      · rw [scanFrom]; simp [hs]
      · intro m h1 h2; omega
      · intro _
        have : i + 0 = i := rfl
        rw [this]
        simp only [Bool.not_eq_true] at hs
        exact hs

theorem segment_zero (row col dx dy : Int) (c : Nat) :
    segment row col dx dy 0 c =
      (row, col) :: (List.range' 1 c).map (fun m : Nat => (row + dx * (m : Int), col + dy * (m : Int))) := by
  unfold segment
  have h0 : (0 : Nat) + c + 1 = c + 1 := by omega
  rw [h0, List.range_succ_eq_map, List.map_cons, List.map_map, List.range'_eq_map_range,
    List.map_map]
  congr 1
  · simp
  · apply List.map_congr_left
    intro j hj
    simp only [Function.comp_apply, Nat.succ_eq_add_one, Prod.mk.injEq]
    constructor
    · push_cast; ring
    · push_cast; ring

theorem segment_succ (row col dx dy : Int) (a c : Nat) :
    segment row col dx dy (a + 1) c =
      (row - dx * ((a : Int) + 1), col - dy * ((a : Int) + 1)) :: segment row col dx dy a c := by
  unfold segment
  have h0 : (a + 1) + c + 1 = (a + c + 1) + 1 := by omega
  rw [h0, List.range_succ_eq_map, List.map_cons, List.map_map]
  congr 1
  · simp only [Prod.mk.injEq]
    constructor
    · push_cast; ring
    · push_cast; ring
  · apply List.map_congr_left
    intro j hj
    simp only [Function.comp_apply, Nat.succ_eq_add_one, Prod.mk.injEq]
    constructor
    · push_cast; ring
    · push_cast; ring

theorem rev_neg_append_eq_segment (row col dx dy : Int) (c : Nat) : ∀ a : Nat,
    ((List.range' 1 a).map (fun m : Nat => (row + -dx * (m : Int), col + -dy * (m : Int)))).reverse ++
        (row, col) :: (List.range' 1 c).map (fun m : Nat => (row + dx * (m : Int), col + dy * (m : Int))) =
      segment row col dx dy a c := by
  intro a
  induction a with
  | zero => rw [segment_zero]; rfl
  | succ a ih =>
    rw [List.range'_concat, List.map_append, List.reverse_append, segment_succ, ← ih]
    simp only [List.map_cons, List.map_nil, List.reverse_cons, List.reverse_nil, List.nil_append,
      List.cons_append, List.append_assoc]
    congr 1
    simp only [Prod.mk.injEq]
    constructor
    · push_cast; ring
    · push_cast; ring

theorem lineCells_eq_segment (b : Board) (p : String) (row col dx dy : Int) :
    ∃ a c : Nat, a ≤ 4 ∧ c ≤ 4 ∧
      lineCells b p row col dx dy = segment row col dx dy a c ∧
      chainOK b p row col (-dx) (-dy) a ∧ chainOK b p row col dx dy c ∧
      (a < 4 → stepOK b p (row + -dx * ((1 + a : Nat) : Int)) (col + -dy * ((1 + a : Nat) : Int)) = false) ∧
      (c < 4 → stepOK b p (row + dx * ((1 + c : Nat) : Int)) (col + dy * ((1 + c : Nat) : Int)) = false) := by
  obtain ⟨a, ha, haeq, haall, hastop⟩ := scanFrom_spec b p row col (-dx) (-dy) 4 1
  obtain ⟨c, hc, hceq, hcall, hcstop⟩ := scanFrom_spec b p row col dx dy 4 1
  refine ⟨a, c, ha, hc, ?_, ?_, ?_, hastop, hcstop⟩
  · unfold lineCells
    rw [haeq, hceq, rev_neg_append_eq_segment]
  · intro m h1 h2
    exact haall m h1 (by omega)
  · intro m h1 h2
    exact hcall m h1 (by omega)

theorem segment_length (row col dx dy : Int) (a c : Nat) :
    (segment row col dx dy a c).length = a + c + 1 := by
  unfold segment
  simp

theorem center_mem_segment (row col dx dy : Int) (a c : Nat) :
    (row, col) ∈ segment row col dx dy a c := by
  unfold segment
  refine List.mem_map.mpr ⟨a, ?_, ?_⟩
  · exact List.mem_range.mpr (by omega)
  · simp

theorem dirCheck_some_spec (b : Board) (p : String) (row col dx dy : Int) (w : List Cell)
    (h : dirCheck b row col p dx dy = some w) :
    ∃ a c : Nat, a ≤ 4 ∧ c ≤ 4 ∧ w = segment row col dx dy a c ∧ 5 ≤ a + c + 1 ∧
      chainOK b p row col (-dx) (-dy) a ∧ chainOK b p row col dx dy c ∧
      (a < 4 → stepOK b p (row + -dx * ((1 + a : Nat) : Int)) (col + -dy * ((1 + a : Nat) : Int)) = false) ∧
      (c < 4 → stepOK b p (row + dx * ((1 + c : Nat) : Int)) (col + dy * ((1 + c : Nat) : Int)) = false) := by
  obtain ⟨a, c, ha4, hc4, heq, hneg, hpos, hastop, hcstop⟩ := lineCells_eq_segment b p row col dx dy
  unfold dirCheck at h
  split at h
  · rename_i hlen
    rw [heq, segment_length] at hlen
    obtain rfl : lineCells b p row col dx dy = w := by injection h
    exact ⟨a, c, ha4, hc4, heq, hlen, hneg, hpos, hastop, hcstop⟩
  · exact absurd h (by simp)

theorem dirCheck_isSome_iff (b : Board) (p : String) (row col dx dy : Int) :
    (dirCheck b row col p dx dy).isSome = true ↔
      ∃ a c : Nat, 4 ≤ a + c ∧ chainOK b p row col (-dx) (-dy) a ∧ chainOK b p row col dx dy c := by
  obtain ⟨kn, kc, hkn4, hkc4, heq, hneg, hpos, hnstop, hcstop⟩ :=
    lineCells_eq_segment b p row col dx dy
  constructor
  · intro hs
    exact ⟨kn, kc, by
      unfold dirCheck at hs
      split at hs
      · rename_i hlen
        rw [heq, segment_length] at hlen
        omega
      · simp at hs, hneg, hpos⟩
  · rintro ⟨a, c, hac, hcn, hcc⟩
    have hn : a ≤ kn ∨ 4 ≤ kn := by
      by_contra hcon
      push_neg at hcon
      obtain ⟨h1, h2⟩ := hcon
      have hfalse := hnstop h2
      have htrue := hcn (kn + 1) (by omega) (by omega)
      rw [Nat.add_comm 1 kn] at hfalse
      rw [htrue] at hfalse
      exact absurd hfalse (by simp)
    have hc : c ≤ kc ∨ 4 ≤ kc := by
      by_contra hcon
      push_neg at hcon
      obtain ⟨h1, h2⟩ := hcon
      have hfalse := hcstop h2
      have htrue := hcc (kc + 1) (by omega) (by omega)
      rw [Nat.add_comm 1 kc] at hfalse
      rw [htrue] at hfalse
      exact absurd hfalse (by simp)
    have hlen : 5 ≤ (lineCells b p row col dx dy).length := by
      rw [heq, segment_length]
      rcases hn with hn | hn <;> rcases hc with hc | hc <;> omega
    unfold dirCheck
    simp [hlen]

theorem orElse_isSome {α : Type} (x y : Option α) : (x <|> y).isSome = (x.isSome || y.isSome) := by
  cases x <;> simp

theorem checkWinner_some_spec (b : Board) (p : String) (row col : Int) (w : List Cell)
    (h : checkWinner b row col p = some w) :
    ∃ dx dy : Int, ((dx, dy) ∈ dirList) ∧ dirCheck b row col p dx dy = some w := by
  unfold checkWinner at h
  cases h1 : dirCheck b row col p 0 1 with
  | some v =>
    rw [h1] at h
    simp only [Option.some_orElse] at h
    exact ⟨0, 1, by simp [dirList], h1.trans h⟩
  | none =>
    rw [h1] at h
    simp only [Option.none_orElse] at h
    cases h2 : dirCheck b row col p 1 0 with
    | some v =>
      rw [h2] at h
      simp only [Option.some_orElse] at h
      exact ⟨1, 0, by simp [dirList], h2.trans h⟩
    | none =>
      rw [h2] at h
      simp only [Option.none_orElse] at h
      cases h3 : dirCheck b row col p 1 1 with
      | some v =>
        rw [h3] at h
        simp only [Option.some_orElse] at h
        exact ⟨1, 1, by simp [dirList], h3.trans h⟩
      | none =>
        rw [h3] at h
        simp only [Option.none_orElse] at h
        exact ⟨1, -1, by simp [dirList], h⟩

theorem checkWinner_isSome_iff (b : Board) (p : String) (row col : Int) :
    (checkWinner b row col p).isSome = true ↔ runExists b p row col := by
  constructor
  · intro hs
    obtain ⟨w, hw⟩ := Option.isSome_iff_exists.mp hs
    obtain ⟨dx, dy, hmem, hdc⟩ := checkWinner_some_spec b p row col w hw
    have : (dirCheck b row col p dx dy).isSome = true := by rw [hdc]; rfl
    obtain ⟨a, c, hac, hcn, hcc⟩ := (dirCheck_isSome_iff b p row col dx dy).mp this
    exact ⟨(dx, dy), hmem, a, c, hac, hcn, hcc⟩
  · rintro ⟨⟨dx, dy⟩, hmem, a, c, hac, hcn, hcc⟩
    have hdir : (dirCheck b row col p dx dy).isSome = true :=
      (dirCheck_isSome_iff b p row col dx dy).mpr ⟨a, c, hac, hcn, hcc⟩
    unfold checkWinner
    rw [orElse_isSome, orElse_isSome, orElse_isSome]
    simp only [dirList, List.mem_cons, List.mem_singleton, Prod.mk.injEq] at hmem
    rcases hmem with ⟨rfl, rfl⟩ | ⟨⟨rfl, rfl⟩ | ⟨⟨rfl, rfl⟩ | h4⟩⟩
    · simp [hdir]
    · simp [hdir]
    · simp [hdir]
    · simp only [List.not_mem_nil, or_false] at h4
      obtain ⟨rfl, rfl⟩ := h4
      simp [hdir]

/-! ## Shape lemmas for `makeMove` -/

theorem placeMove_spec (g : GameState) (player : PlayerRec) (row col : Int) :
    ∃ (w d : Bool) (g' : GameState),
      placeMove g player row col = (.ok w d, some g') ∧
      g'.board = setCell g.board row col (some player.symbol) ∧
      g'.moveCount = g.moveCount + 1 ∧
      g'.lockedCells = g.lockedCells ∧
      (w = true ↔ (checkWinner g'.board row col player.symbol).isSome = true) ∧
      (∀ ww, checkWinner g'.board row col player.symbol = some ww →
        w = true ∧ g'.winningCells = ww) := by
  unfold placeMove
  cases hc : checkWinner (placedState g player row col).board row col player.symbol with
  | some ww =>
    refine ⟨true, false, _, rfl, rfl, rfl, rfl, ?_, ?_⟩
    · simp [hc]
    · intro ww2 h2
      rw [hc] at h2
      injection h2 with h3
      exact ⟨rfl, h3⟩
  | none =>
    by_cases hf : isBoardFull (placedState g player row col).board = true
    · rw [if_pos hf]
      refine ⟨false, true, _, rfl, rfl, rfl, rfl, ?_, ?_⟩
      · simp [hc]
      · intro ww2 h2
        rw [hc] at h2
        exact absurd h2 (by simp)
    · rw [if_neg hf]
      refine ⟨false, false, _, rfl, rfl, rfl, rfl, ?_, ?_⟩
      · simp [hc]
      · intro ww2 h2
        rw [hc] at h2
        exact absurd h2 (by simp)

theorem openFourCheck_cases (g : GameState) (player : PlayerRec) (row col : Int) :
    openFourCheck g player row col = (.err openFourMsg, some g) ∨
    openFourCheck g player row col = placeMove g player row col := by
  unfold openFourCheck
  split
  · split
    · split
      · exact Or.inl rfl
      · exact Or.inr rfl
    · exact Or.inr rfl
  · exact Or.inr rfl

theorem makeMove_cases (g : GameState) (s : String) (row col : Int) :
    (∃ msg, makeMove (some g) s row col = (.err msg, some g)) ∨
    (makeMove (some g) s row col = (.thrown, some g)) ∨
    (∃ player brow, resolvePlayer g s = some player ∧ g.status = "playing" ∧
      g.currentTurn = player.symbol ∧ isLockedCell g.lockedCells row col = false ∧
      jsGet g.board row = some brow ∧ jsGet brow col = some none ∧
      makeMove (some g) s row col = openFourCheck g player row col) := by
  by_cases h1 : g.status = "playing"
  · cases hp : resolvePlayer g s with
    | none =>
      refine Or.inl ⟨"Player not in this room", ?_⟩
      unfold makeMove
      simp [h1, hp]
    | some player =>
      by_cases h2 : g.currentTurn = player.symbol
      · by_cases h3 : isLockedCell g.lockedCells row col = true
        · refine Or.inl ⟨lockedMsg, ?_⟩
          unfold makeMove
          simp [h1, hp, h2, h3]
        · rw [Bool.not_eq_true] at h3
          cases h4 : jsGet g.board row with
          | none =>
            refine Or.inr (Or.inl ?_)
            unfold makeMove
            simp [h1, hp, h2, h3, h4]
          | some brow =>
            by_cases h5 : jsGet brow col = some none
            · by_cases h6 : g.moveCount = 0 ∧ player.symbol = "X" ∧
                  ¬ (isValidFirstMoveB g row col = true)
              · refine Or.inl ⟨firstMoveMsg, ?_⟩
                unfold makeMove
                simp only [h1, ne_eq, not_true_eq_false, if_false, hp, h2, h3,
                  Bool.false_eq_true, h4, h5, not_true_eq_false]
                rw [if_pos h6]
              · refine Or.inr (Or.inr ⟨player, brow, rfl, h1, h2, h3, rfl, h5, ?_⟩)
                unfold makeMove
                simp only [h1, ne_eq, not_true_eq_false, if_false, hp, h2, h3,
                  Bool.false_eq_true, h4, h5, not_true_eq_false]
                rw [if_neg h6]
            · refine Or.inl ⟨occupiedMsg, ?_⟩
              unfold makeMove
              simp [h1, hp, h2, h3, h4, h5]
      · refine Or.inl ⟨"Not your turn", ?_⟩
        unfold makeMove
        simp [h1, hp, h2]
  · refine Or.inl ⟨"Invalid game state", ?_⟩
    unfold makeMove
    simp [h1]

/-! ## Claim theorems -/

/-- C1.  Win detection: for every accepted move, `makeMove` reports a win
exactly when some orientation carries a contiguous same-symbol run of length
≥ 5 through the placed cell on the resulting board; when it does,
`winningCells` is the run collected by walking at most 4 steps in each
direction from the placed cell (`segment` with `a, c ≤ 4`, maximal within
that walk), listed in negative-to-positive board order, containing the
placed cell, of length ≥ 5 and returned in full rather than truncated to 5.
Otherwise no win is reported. -/
theorem makeMove_win_reporting (g : GameState) (s : String) (row col : Int)
    (win draw : Bool) (g' : GameState)
    (h : makeMove (some g) s row col = (.ok win draw, some g')) :
    (win = true ↔ runExists g'.board g.currentTurn row col) ∧
    (win = true →
      ∃ dx dy : Int, ((dx, dy) ∈ dirList) ∧ ∃ a c : Nat, a ≤ 4 ∧ c ≤ 4 ∧
        g'.winningCells = segment row col dx dy a c ∧
        5 ≤ g'.winningCells.length ∧ (row, col) ∈ g'.winningCells ∧
        chainOK g'.board g.currentTurn row col (-dx) (-dy) a ∧
        chainOK g'.board g.currentTurn row col dx dy c ∧
        (a < 4 → stepOK g'.board g.currentTurn
          (row + -dx * ((1 + a : Nat) : Int)) (col + -dy * ((1 + a : Nat) : Int)) = false) ∧
        (c < 4 → stepOK g'.board g.currentTurn
          (row + dx * ((1 + c : Nat) : Int)) (col + dy * ((1 + c : Nat) : Int)) = false)) := by
  rcases makeMove_cases g s row col with ⟨msg, heq⟩ | heq |
    ⟨player, brow, hp, hst, hturn, hlock, hrow, hcol, heq⟩
  · rw [heq] at h
    exact absurd h (by simp)
  · rw [heq] at h
    exact absurd h (by simp)
  · rw [heq] at h
    rcases openFourCheck_cases g player row col with hof | hof
    · rw [hof] at h
      exact absurd h (by simp)
    · rw [hof] at h
      obtain ⟨w, d, g2, hpm, hboard, hmc, hlc, hwin, hcells⟩ := placeMove_spec g player row col
      rw [hpm] at h
      simp only [Prod.mk.injEq, MoveResp.ok.injEq, Option.some.injEq] at h
      obtain ⟨⟨hw, hd⟩, hg2⟩ := h
      subst hw
      subst hg2
      rw [← hturn] at hwin hcells
      refine ⟨hwin.trans (checkWinner_isSome_iff _ _ _ _), ?_⟩
      intro hwt
      obtain ⟨ww, hww⟩ := Option.isSome_iff_exists.mp (hwin.mp hwt)
      obtain ⟨dx, dy, hmem, hdc⟩ := checkWinner_some_spec _ _ _ _ _ hww
      obtain ⟨a, c, ha, hc, hseg, hlen5, hneg, hpos, hnstop, hcstop⟩ :=
        dirCheck_some_spec _ _ _ _ _ _ _ hdc
      have hwc := ((hcells ww hww).2).trans hseg
      refine ⟨dx, dy, hmem, a, c, ha, hc, hwc, ?_, ?_, hneg, hpos, hnstop, hcstop⟩
      · rw [hwc, segment_length]; omega
      · rw [hwc]; exact center_mem_segment row col dx dy a c

set_option maxRecDepth 40000 in
set_option maxHeartbeats 1000000 in
/-- C1 witness: in the concrete room `winPreG`, X's move at (2,3) completes
the run (2,2)..(2,7); the win is reported and all conclusions of
`makeMove_win_reporting` hold there (the returned `winningCells` is the full
6-cell run, longer than 5). -/
theorem makeMove_win_reporting_witness :
    (makeMove (some winPreG) "s1" 2 3 = (.ok true false, some winPostG)) ∧
    ((true = true ↔ runExists winPostG.board winPreG.currentTurn 2 3) ∧
     (true = true →
       ∃ dx dy : Int, ((dx, dy) ∈ dirList) ∧ ∃ a c : Nat, a ≤ 4 ∧ c ≤ 4 ∧
         winPostG.winningCells = segment 2 3 dx dy a c ∧
         5 ≤ winPostG.winningCells.length ∧
         ((2 : Int), (3 : Int)) ∈ winPostG.winningCells ∧
         chainOK winPostG.board winPreG.currentTurn 2 3 (-dx) (-dy) a ∧
         chainOK winPostG.board winPreG.currentTurn 2 3 dx dy c ∧
         (a < 4 → stepOK winPostG.board winPreG.currentTurn
           (2 + -dx * ((1 + a : Nat) : Int)) (3 + -dy * ((1 + a : Nat) : Int)) = false) ∧
         (c < 4 → stepOK winPostG.board winPreG.currentTurn
           (2 + dx * ((1 + c : Nat) : Int)) (3 + dy * ((1 + c : Nat) : Int)) = false))) := by
  have h : makeMove (some winPreG) "s1" 2 3 = (.ok true false, some winPostG) := by rfl
  exact ⟨h, makeMove_win_reporting winPreG "s1" 2 3 true false winPostG h⟩

set_option maxRecDepth 40000 in
set_option maxHeartbeats 1000000 in
/-- C2 counterexample: the claim "the first stone of a round is accepted iff
its coordinate is in `validFirstMoveCells`, for every opener symbol" is false
on the code.  `gRound2G` is reachable (create → join → start → start): the
starter alternated to symbol O, yet O's very first stone at (0,0) — not a
valid first-move cell — is accepted instead of being rejected with the
first-move-restricted error, because the source guards the check with
`player.symbol === "X"`. -/
theorem firstMove_restriction_claim_false :
    gRound2G.status = "playing" ∧ gRound2G.moveCount = 0 ∧
    gRound2G.currentTurn = "O" ∧ gRound2G.lastStarter = some "O" ∧
    isValidFirstMoveB gRound2G 0 0 = false ∧
    isLockedCell gRound2G.lockedCells 0 0 = false ∧
    (makeMove (some gRound2G) "s2" 0 0).1 = .ok false false :=
  ⟨rfl, rfl, rfl, rfl, rfl, rfl, rfl⟩

/-- C2 (amended).  The first-move restriction is enforced only when the
mover's symbol is X: with all earlier validation steps passing and the board
carrying no stone of the mover's symbol, X's first stone of a round is
accepted iff its cell is in `validFirstMoveCells` (else rejected with the
first-move-restricted error), while an O opener's first stone is accepted
with no membership requirement at all. -/
theorem firstMove_restriction_X_only (g : GameState) (s : String) (row col : Int)
    (player : PlayerRec) (brow : BoardRow)
    (hst : g.status = "playing") (hp : resolvePlayer g s = some player)
    (ht : g.currentTurn = player.symbol)
    (hl : isLockedCell g.lockedCells row col = false)
    (hr : jsGet g.board row = some brow) (hc : jsGet brow col = some none)
    (hmc : g.moveCount = 0) (hcount : countSymbol g.board player.symbol ≠ 1) :
    (player.symbol = "X" → isValidFirstMoveB g row col = false →
      makeMove (some g) s row col = (.err firstMoveMsg, some g)) ∧
    (player.symbol = "X" → isValidFirstMoveB g row col = true →
      ∃ (w d : Bool) (g' : GameState), makeMove (some g) s row col = (.ok w d, some g')) ∧
    (player.symbol ≠ "X" →
      ∃ (w d : Bool) (g' : GameState), makeMove (some g) s row col = (.ok w d, some g')) := by
  have hbase : makeMove (some g) s row col =
      (if g.moveCount = 0 ∧ player.symbol = "X" ∧ ¬ (isValidFirstMoveB g row col = true)
       then (.err firstMoveMsg, some g) else openFourCheck g player row col) := by
    unfold makeMove
    simp [hst, hp, ht, hl, hr, hc]
  have hoc : openFourCheck g player row col = placeMove g player row col := by
    unfold openFourCheck
    rw [if_neg (fun hcon => hcount hcon.1)]
  obtain ⟨w, d, g', hpm, _⟩ := placeMove_spec g player row col
  refine ⟨?_, ?_, ?_⟩
  · intro hx hnv
    rw [hbase, if_pos ⟨hmc, hx, by simp [hnv]⟩]
  · intro hx hv
    exact ⟨w, d, g', by rw [hbase, if_neg (by simp [hv]), hoc, hpm]⟩
  · intro hnx
    exact ⟨w, d, g', by rw [hbase, if_neg (fun hcon => hnx hcon.2.1), hoc, hpm]⟩

set_option maxRecDepth 40000 in
set_option maxHeartbeats 1000000 in
/-- C2 witness: the amended theorem applied to the concrete room `gRound1G`
(X opens round 1) at the non-valid cell (0,0): every hypothesis holds there
and X's stone at (0,0) is rejected with the first-move-restricted error. -/
theorem firstMove_restriction_X_only_witness :
    (gRound1G.status = "playing" ∧ resolvePlayer gRound1G "s1" = some gRound1G.player1 ∧
     gRound1G.currentTurn = gRound1G.player1.symbol ∧
     isLockedCell gRound1G.lockedCells 0 0 = false ∧
     jsGet gRound1G.board 0 = some emptyRow ∧ jsGet emptyRow 0 = some none ∧
     gRound1G.moveCount = 0 ∧ countSymbol gRound1G.board gRound1G.player1.symbol ≠ 1) ∧
    ((gRound1G.player1.symbol = "X" → isValidFirstMoveB gRound1G 0 0 = false →
        makeMove (some gRound1G) "s1" 0 0 = (.err firstMoveMsg, some gRound1G)) ∧
     (gRound1G.player1.symbol = "X" → isValidFirstMoveB gRound1G 0 0 = true →
        ∃ (w d : Bool) (g' : GameState),
          makeMove (some gRound1G) "s1" 0 0 = (.ok w d, some g')) ∧
     (gRound1G.player1.symbol ≠ "X" →
        ∃ (w d : Bool) (g' : GameState),
          makeMove (some gRound1G) "s1" 0 0 = (.ok w d, some g'))) := by
  have hcount : countSymbol gRound1G.board gRound1G.player1.symbol ≠ 1 := by decide
  exact ⟨⟨rfl, rfl, rfl, rfl, rfl, rfl, rfl, hcount⟩,
    firstMove_restriction_X_only gRound1G "s1" 0 0 gRound1G.player1 emptyRow
      rfl rfl rfl rfl rfl rfl rfl hcount⟩

/-- C3.  Opening-distance rule: in a playing room where the mover is the
round's opener (their symbol equals `firstStarterSymbol`) and exactly one
stone of their symbol is on the board, with every earlier validation step
passing, the move is rejected with the Open-4 error iff the Manhattan
distance from `firstStarterPos` to the move is below 5, and accepted at
distance ≥ 5.  The symbol is universally quantified: the rule applies to
whichever symbol opened the round. -/
theorem openingDistance_rule (g : GameState) (s : String) (row col : Int)
    (player : PlayerRec) (brow : BoardRow) (fp : Cell)
    (hst : g.status = "playing") (hp : resolvePlayer g s = some player)
    (ht : g.currentTurn = player.symbol)
    (hl : isLockedCell g.lockedCells row col = false)
    (hr : jsGet g.board row = some brow) (hc : jsGet brow col = some none)
    (hfm : ¬ (g.moveCount = 0 ∧ player.symbol = "X" ∧ ¬ (isValidFirstMoveB g row col = true)))
    (hcount : countSymbol g.board player.symbol = 1)
    (hsym : g.firstStarterSymbol = some player.symbol)
    (hpos : g.firstStarterPos = some fp) :
    ((makeMove (some g) s row col = (.err openFourMsg, some g)) ↔ manhattan fp (row, col) < 5) ∧
    (5 ≤ manhattan fp (row, col) →
      ∃ (w d : Bool) (g' : GameState), makeMove (some g) s row col = (.ok w d, some g')) := by
  have hbase : makeMove (some g) s row col = openFourCheck g player row col := by
    unfold makeMove
    simp only [hst, ne_eq, not_true_eq_false, if_false, hp, ht, hl, Bool.false_eq_true, hr, hc,
      not_true_eq_false]
    rw [if_neg hfm]
  have hof : openFourCheck g player row col =
      (if manhattan fp (row, col) < 5 then (.err openFourMsg, some g)
       else placeMove g player row col) := by
    unfold openFourCheck
    rw [if_pos ⟨hcount, hsym⟩, if_pos ⟨by rw [hpos]; rfl, hsym⟩, hpos]
  obtain ⟨w, d, g', hpm, _⟩ := placeMove_spec g player row col
  constructor
  · constructor
    · intro herr
      by_contra hge
      rw [hbase, hof, if_neg hge, hpm] at herr
      exact absurd herr (by simp)
    · intro hlt
      rw [hbase, hof, if_pos hlt]
  · intro hge
    exact ⟨w, d, g', by rw [hbase, hof, if_neg (by omega), hpm]⟩

set_option maxRecDepth 40000 in
set_option maxHeartbeats 1000000 in
/-- C3 witness: the rule applied in the concrete room `secondMovePreG`,
where X opened at (2,2): X's second stone at (2,4) sits at Manhattan
distance 2 < 5 and is rejected with the Open-4 error. -/
theorem openingDistance_rule_witness :
    (secondMovePreG.status = "playing" ∧
     resolvePlayer secondMovePreG "s1" = some secondMovePreG.player1 ∧
     secondMovePreG.currentTurn = secondMovePreG.player1.symbol ∧
     isLockedCell secondMovePreG.lockedCells 2 4 = false ∧
     jsGet secondMovePreG.board 2 = some demoRow2 ∧ jsGet demoRow2 4 = some none ∧
     ¬ (secondMovePreG.moveCount = 0 ∧ secondMovePreG.player1.symbol = "X" ∧
        ¬ (isValidFirstMoveB secondMovePreG 2 4 = true)) ∧
     countSymbol secondMovePreG.board secondMovePreG.player1.symbol = 1 ∧
     secondMovePreG.firstStarterSymbol = some secondMovePreG.player1.symbol ∧
     secondMovePreG.firstStarterPos = some (2, 2)) ∧
    (((makeMove (some secondMovePreG) "s1" 2 4 = (.err openFourMsg, some secondMovePreG)) ↔
        manhattan (2, 2) (2, 4) < 5) ∧
     (5 ≤ manhattan (2, 2) (2, 4) →
       ∃ (w d : Bool) (g' : GameState),
         makeMove (some secondMovePreG) "s1" 2 4 = (.ok w d, some g'))) := by
  have hfm : ¬ (secondMovePreG.moveCount = 0 ∧ secondMovePreG.player1.symbol = "X" ∧
      ¬ (isValidFirstMoveB secondMovePreG 2 4 = true)) := by decide
  exact ⟨⟨rfl, rfl, rfl, rfl, rfl, rfl, hfm, rfl, rfl, rfl⟩,
    openingDistance_rule secondMovePreG "s1" 2 4 secondMovePreG.player1 demoRow2 (2, 2)
      rfl rfl rfl rfl rfl rfl hfm rfl rfl rfl⟩

/-! ## Counting lemmas for the move-count invariant -/

theorem jsGet_eq_some {α : Type} (l : List α) (i : Int) (x : α) (h : jsGet l i = some x) :
    0 ≤ i ∧ l.get? i.toNat = some x := by
  unfold jsGet at h
  split at h
  · rename_i hcond
    injection h with h'
    exact ⟨hcond.1, by rw [List.get?_eq_get hcond.2, h']⟩
  · exact absurd h (by simp)

theorem rowHits_set (locked : List Cell) (r : Int) (sym : String) :
    ∀ (l : BoardRow) (c0 : Int) (m : Nat), l.get? m = some none →
      isLockedCell locked r (c0 + (m : Int)) = false →
      rowHitsFrom locked r c0 (l.set m (some sym)) = rowHitsFrom locked r c0 l + 1 := by
  intro l
  induction l with
  | nil => intro c0 m h _; simp at h
  | cons v rest ih =>
    intro c0 m hget hlock
    cases m with
    | zero =>
      have hv : v = none := by
        rw [List.get?_cons_zero] at hget
        injection hget
      subst hv
      rw [Nat.cast_zero, add_zero] at hlock
      simp [rowHitsFrom, hlock]
      omega
    | succ m' =>
      rw [List.get?_cons_succ] at hget
      have hlock' : isLockedCell locked r ((c0 + 1) + (m' : Int)) = false := by
        have harg : (c0 + 1) + (m' : Int) = c0 + ((m' + 1 : Nat) : Int) := by push_cast; ring
        rw [harg]
        exact hlock
      have htail := ih (c0 + 1) m' hget hlock'
      rw [List.set_cons_succ]
      simp only [rowHitsFrom, htail]
      omega

theorem boardHits_set (locked : List Cell) (sym : String) :
    ∀ (b : Board) (r0 : Int) (n : Nat) (brow : BoardRow) (m : Nat),
      b.get? n = some brow → brow.get? m = some none →
      isLockedCell locked (r0 + (n : Int)) ((m : Int)) = false →
      boardHitsFrom locked r0 (b.set n (brow.set m (some sym))) =
        boardHitsFrom locked r0 b + 1 := by
  intro b
  induction b with
  | nil => intro r0 n brow m h _ _; simp at h
  | cons hd tl ih =>
    intro r0 n brow m hrow hcell hlock
    cases n with
    | zero =>
      have hh : hd = brow := by
        rw [List.get?_cons_zero] at hrow
        injection hrow
      subst hh
      rw [Nat.cast_zero, add_zero] at hlock
      rw [List.set_cons_zero]
      simp only [boardHitsFrom]
      have := rowHits_set locked r0 sym hd 0 m hcell (by rw [zero_add]; exact hlock)
      omega
    | succ n' =>
      rw [List.get?_cons_succ] at hrow
      have hlock' : isLockedCell locked ((r0 + 1) + (n' : Int)) ((m : Int)) = false := by
        have harg : (r0 + 1) + (n' : Int) = r0 + ((n' + 1 : Nat) : Int) := by push_cast; ring
        rw [harg]
        exact hlock
      have htail := ih (r0 + 1) n' brow m hrow hcell hlock'
      rw [List.set_cons_succ]
      simp only [boardHitsFrom, htail]
      omega

/-- A fresh (all-`none`) board has no occupied cells, whatever the locked
cells are. -/
theorem emptyBoard_hits (locked : List Cell) (r0 : Int) :
    boardHitsFrom locked r0 createEmptyBoard = 0 := by
  have hrow : ∀ (r1 c0 : Int) (n : Nat),
      rowHitsFrom locked r1 c0 (List.replicate n (none : Option String)) = 0 := by
    intro r1 c0 n
    induction n generalizing c0 with
    | zero => rfl
    | succ n ih =>
      rw [List.replicate_succ]
      simp [rowHitsFrom, ih]
  have hb : ∀ (n : Nat) (r1 : Int),
      boardHitsFrom locked r1 (List.replicate n (List.replicate BOARD_SIZE
        (none : Option String))) = 0 := by
    intro n
    induction n with
    | zero => intro r1; rfl
    | succ n ih =>
      intro r1
      rw [List.replicate_succ]
      simp only [boardHitsFrom]
      rw [ih, hrow r1 0 BOARD_SIZE]
  exact hb BOARD_SIZE r0

/-- Effects of a single `makeMove` call on a room: failures leave the state
untouched, accepted placements target an unlocked empty cell and increment
both `moveCount` and the occupied-cell count. -/
theorem makeMove_step (g : GameState) (s : String) (row col : Int) :
    (∃ msg, makeMove (some g) s row col = (.err msg, some g)) ∨
    (makeMove (some g) s row col = (.thrown, some g)) ∨
    (∃ (w d : Bool) (g2 : GameState), makeMove (some g) s row col = (.ok w d, some g2) ∧
      g2.lockedCells = g.lockedCells ∧ g2.moveCount = g.moveCount + 1 ∧
      isLockedCell g.lockedCells row col = false ∧
      (∃ brow, jsGet g.board row = some brow ∧ jsGet brow col = some none) ∧
      occupiedUnlockedCount g2 = occupiedUnlockedCount g + 1) := by
  rcases makeMove_cases g s row col with h | h | ⟨player, brow, hp, hst, ht, hl, hr, hc, heq⟩
  · exact Or.inl h
  · exact Or.inr (Or.inl h)
  · rcases openFourCheck_cases g player row col with hof | hof
    · exact Or.inl ⟨openFourMsg, heq.trans hof⟩
    · obtain ⟨w, d, g2, hpm, hboard, hmc, hlc, _, _⟩ := placeMove_spec g player row col
      refine Or.inr (Or.inr ⟨w, d, g2, (heq.trans hof).trans hpm, hlc, hmc, hl,
        ⟨brow, hr, hc⟩, ?_⟩)
      obtain ⟨hrNN, hrGet⟩ := jsGet_eq_some g.board row brow hr
      obtain ⟨hcNN, hcGet⟩ := jsGet_eq_some brow col (none : Option String) hc
      have hset : setCell g.board row col (some player.symbol) =
          g.board.set row.toNat (brow.set col.toNat (some player.symbol)) := by
        unfold setCell
        rw [hr]
      have hlock0 : isLockedCell g.lockedCells ((0 : Int) + (row.toNat : Int))
          ((col.toNat : Int)) = false := by
        rw [zero_add, Int.toNat_of_nonneg hrNN, Int.toNat_of_nonneg hcNN]
        exact hl
      have hcount := boardHits_set g.lockedCells player.symbol g.board 0 row.toNat brow
        col.toNat hrGet hcGet hlock0
      unfold occupiedUnlockedCount
      rw [hlc, hboard, hset, hcount]

/-- The accepted-move count produced by `applyMoves` tracks `moveCount` and
the occupied-cell count exactly. -/
theorem applyMoves_invariant :
    ∀ (ms : List (String × Int × Int)) (g : GameState),
      g.moveCount = occupiedUnlockedCount g →
      ∀ (gF : GameState) (k : Nat), applyMoves (some g) ms = (some gF, k) →
        gF.moveCount = g.moveCount + k ∧
        occupiedUnlockedCount gF = occupiedUnlockedCount g + k := by
  intro ms
  induction ms with
  | nil =>
    intro g hg gF k h
    unfold applyMoves at h
    injection h with h1 h2
    injection h1 with h1
    subst h1
    omega
  | cons mv rest ih =>
    obtain ⟨s, row, col⟩ := mv
    intro g hg gF k h
    simp only [applyMoves] at h
    rcases makeMove_step g s row col with ⟨msg, hstep⟩ | hstep |
      ⟨w, d, g2, hstep, hlc, hmc, _, _, hcnt⟩
    · rw [hstep] at h
      simp only at h
      rcases hrest : applyMoves (some g) rest with ⟨gs', k'⟩
      rw [hrest] at h
      injection h with h1 h2
      subst h1
      obtain ⟨hm, hcc⟩ := ih g hg gF k' hrest
      omega
    · rw [hstep] at h
      simp only at h
      rcases hrest : applyMoves (some g) rest with ⟨gs', k'⟩
      rw [hrest] at h
      injection h with h1 h2
      subst h1
      obtain ⟨hm, hcc⟩ := ih g hg gF k' hrest
      omega
    · rw [hstep] at h
      simp only at h
      rcases hrest : applyMoves (some g2) rest with ⟨gs', k'⟩
      rw [hrest] at h
      injection h with h1 h2
      subst h1
      have hg2 : g2.moveCount = occupiedUnlockedCount g2 := by omega
      obtain ⟨hm, hcc⟩ := ih g2 hg2 gF k' hrest
      omega

/-- C4.  Move-count invariant: starting from a fresh (created or reset) room,
after any sequence of move requests of which `k` were accepted, `moveCount`
equals `k` and equals the number of non-empty, non-locked board cells; and
every accepted move targets an unlocked, previously empty cell. -/
theorem moveCount_invariant (g0 : GameState) (hf : FreshRoom g0)
    (ms : List (String × Int × Int)) (gF : GameState) (k : Nat)
    (h : applyMoves (some g0) ms = (some gF, k)) :
    gF.moveCount = k ∧ occupiedUnlockedCount gF = k ∧
    (∀ (g : GameState) (s : String) (r c : Int) (w d : Bool) (g2 : GameState),
      makeMove (some g) s r c = (.ok w d, some g2) →
      isLockedCell g.lockedCells r c = false ∧
      ∃ brow, jsGet g.board r = some brow ∧ jsGet brow c = some none) := by
  have hmc0 : g0.moveCount = 0 ∧ occupiedUnlockedCount g0 = 0 := by
    rcases hf with ⟨rand, rid, p1, rfl⟩ | ⟨rand, g, hr⟩
    · exact ⟨rfl, emptyBoard_hits _ 0⟩
    · unfold resetRoom at hr
      injection hr with hr2
      subst hr2
      exact ⟨rfl, emptyBoard_hits _ 0⟩
  obtain ⟨hm, hc⟩ := applyMoves_invariant ms g0 (by omega) gF k h
  refine ⟨by omega, by omega, ?_⟩
  intro g s r c w d g2 hmv
  rcases makeMove_step g s r c with ⟨msg, hstep⟩ | hstep |
    ⟨w', d', g2', hstep, _, _, hlock, hcell, _⟩
  · rw [hmv] at hstep
    exact absurd hstep (by simp)
  · rw [hmv] at hstep
    exact absurd hstep (by simp)
  · exact ⟨hlock, hcell⟩

set_option maxRecDepth 80000 in
set_option maxHeartbeats 1600000 in
/-- C4 witness: the invariant instantiated on the concrete reset room
`gRound1G` and the 11-move demo game: all 11 requests are accepted and the
final state has `moveCount = 11` = number of occupied non-locked cells. -/
theorem moveCount_invariant_witness :
    FreshRoom gRound1G ∧ applyMoves (some gRound1G) demoMoves = (some winPostG, 11) ∧
    (winPostG.moveCount = 11 ∧ occupiedUnlockedCount winPostG = 11 ∧
     (∀ (g : GameState) (s : String) (r c : Int) (w d : Bool) (g2 : GameState),
       makeMove (some g) s r c = (.ok w d, some g2) →
       isLockedCell g.lockedCells r c = false ∧
       ∃ brow, jsGet g.board r = some brow ∧ jsGet brow c = some none)) := by
  have hf : FreshRoom gRound1G := Or.inr ⟨randG, gJoinedG, by rfl⟩
  have ha : applyMoves (some gRound1G) demoMoves = (some winPostG, 11) := by rfl
  exact ⟨hf, ha, moveCount_invariant gRound1G hf demoMoves winPostG 11 ha⟩

/-- C5.  Validation-failure atomicity: whenever `makeMove` returns a
`{ error: .. }` result — invalid room state, not in room, not your turn,
locked cell, cell occupied, first-move restricted, or opening-distance
violation — the room state after the call is exactly the state before it
(board, `moveCount`, `currentTurn`, `status`, `winner`, `winningCells` and
the first-starter bookkeeping included). -/
theorem validation_failure_atomicity (gs : Option GameState) (s : String) (row col : Int)
    (msg : String) (st : Option GameState)
    (h : makeMove gs s row col = (.err msg, st)) : st = gs := by
  cases gs with
  | none =>
    unfold makeMove at h
    injection h with _ h2
    exact h2.symm
  | some g =>
    rcases makeMove_cases g s row col with ⟨msg', heq⟩ | heq |
      ⟨player, brow, _, _, _, _, _, _, heq⟩
    · rw [heq] at h
      injection h with _ h2
      exact h2.symm
    · rw [heq] at h
      exact absurd h (by simp)
    · rcases openFourCheck_cases g player row col with hof | hof
      · rw [heq, hof] at h
        injection h with _ h2
        exact h2.symm
      · obtain ⟨w, d, g', hpm, _⟩ := placeMove_spec g player row col
        rw [heq, hof, hpm] at h
        exact absurd h (by simp)

set_option maxRecDepth 40000 in
set_option maxHeartbeats 1000000 in
/-- C5 witness: in the concrete room `gRound1G` it is X's turn; O's request
is rejected with "Not your turn" and the returned state is the input state. -/
theorem validation_failure_atomicity_witness :
    (makeMove (some gRound1G) "s2" 0 0 = (.err "Not your turn", some gRound1G)) ∧
    some gRound1G = some gRound1G := by
  have h : makeMove (some gRound1G) "s2" 0 0 = (.err "Not your turn", some gRound1G) := by rfl
  exact ⟨h, validation_failure_atomicity (some gRound1G) "s2" 0 0 "Not your turn"
    (some gRound1G) h⟩

/-! ## Locked-cell generator lemmas -/

theorem manhattan_self (x : Cell) : manhattan x x = 0 := by
  simp [manhattan]

theorem pickCells_subset : ∀ (l acc : List Cell) (x : Cell),
    x ∈ pickCells l acc → x ∈ acc ∨ x ∈ l := by
  intro l
  induction l with
  | nil =>
    intro acc x h
    exact Or.inl h
  | cons pos rest ih =>
    intro acc x h
    rw [pickCells] at h
    by_cases h0 : acc.length = 0
    · rw [if_pos h0] at h
      rcases ih (acc ++ [pos]) x h with h1 | h1
      · rcases List.mem_append.mp h1 with h2 | h2
        · exact Or.inl h2
        · exact Or.inr (List.mem_cons.mpr (Or.inl (List.mem_singleton.mp h2)))
      · exact Or.inr (List.mem_cons.mpr (Or.inr h1))
    · rw [if_neg h0] at h
      simp only [] at h
      by_cases ht : (acc.any fun c => manhattan c pos < minDistance) = true
      · simp only [ht, if_true] at h
        by_cases h3 : acc.length = 3
        · rw [if_pos h3] at h
          exact Or.inl h
        · rw [if_neg h3] at h
          rcases ih acc x h with h1 | h1
          · exact Or.inl h1
          · exact Or.inr (List.mem_cons.mpr (Or.inr h1))
      · simp only [Bool.not_eq_true] at ht
        simp only [ht, Bool.false_eq_true, if_false] at h
        by_cases h3 : (acc ++ [pos]).length = 3
        · rw [if_pos h3] at h
          rcases List.mem_append.mp h with h2 | h2
          · exact Or.inl h2
          · exact Or.inr (List.mem_cons.mpr (Or.inl (List.mem_singleton.mp h2)))
        · rw [if_neg h3] at h
          rcases ih (acc ++ [pos]) x h with h1 | h1
          · rcases List.mem_append.mp h1 with h2 | h2
            · exact Or.inl h2
            · exact Or.inr (List.mem_cons.mpr (Or.inl (List.mem_singleton.mp h2)))
          · exact Or.inr (List.mem_cons.mpr (Or.inr h1))

theorem swapIdx_mem {α : Type} (l : List α) (i j : Nat) (x : α)
    (h : x ∈ swapIdx l i j) : x ∈ l := by
  unfold swapIdx at h
  split at h
  · rename_i a b ha hb
    rcases List.mem_or_eq_of_mem_set h with h1 | h1
    · rcases List.mem_or_eq_of_mem_set h1 with h2 | h2
      · exact h2
      · subst h2
        exact List.get?_mem hb
    · subst h1
      exact List.get?_mem ha
  · exact h

theorem fyGo_mem {α : Type} (rand : Nat → Nat) :
    ∀ (i : Nat) (k : Nat) (l : List α) (x : α), x ∈ fyGo rand l i k → x ∈ l := by
  intro i
  induction i with
  | zero =>
    intro k l x h
    exact h
  | succ i ih =>
    intro k l x h
    rw [fyGo] at h
    exact swapIdx_mem _ _ _ _ (ih (k + 1) _ x h)

theorem shuffleList_mem {α : Type} (rand : Nat → Nat) (l : List α) (x : α)
    (h : x ∈ shuffleList rand l) : x ∈ l :=
  fyGo_mem rand (l.length - 1) 0 l x h

set_option maxRecDepth 10000 in
theorem candidatesArr_bounds : ∀ rc ∈ candidatesArr,
    0 ≤ rc.1 ∧ rc.1 < (BOARD_SIZE : Int) ∧ 0 ≤ rc.2 ∧ rc.2 < (BOARD_SIZE : Int) := by
  decide

set_option maxRecDepth 10000 in
theorem lockedLoop_spec (rand : Nat → Nat → Nat) (candidates : List Cell)
    (hcand : ∀ rc ∈ candidates,
      0 ≤ rc.1 ∧ rc.1 < (BOARD_SIZE : Int) ∧ 0 ≤ rc.2 ∧ rc.2 < (BOARD_SIZE : Int)) :
    ∀ (fuel attempt : Nat), lockedSpec (lockedLoop rand candidates attempt fuel) := by
  intro fuel
  induction fuel with
  | zero =>
    intro attempt
    show lockedSpec fallbackLocked
    unfold lockedSpec
    decide
  | succ fuel ih =>
    intro attempt
    rw [lockedLoop]
    rcases hch : pickCells (shuffleList (rand attempt) candidates) [] with
      _ | ⟨a, _ | ⟨b, _ | ⟨c, _ | ⟨d, tl⟩⟩⟩⟩
    · exact ih (attempt + 1)
    · exact ih (attempt + 1)
    · exact ih (attempt + 1)
    · change lockedSpec (if minDistance ≤ manhattan a b ∧ minDistance ≤ manhattan a c ∧
          minDistance ≤ manhattan b c ∧ manhattan a b ≤ maxGap ∧
          manhattan a c ≤ maxGap ∧ manhattan b c ≤ maxGap then [a, b, c]
        else lockedLoop rand candidates (attempt + 1) fuel)
      by_cases hg : minDistance ≤ manhattan a b ∧ minDistance ≤ manhattan a c ∧
          minDistance ≤ manhattan b c ∧ manhattan a b ≤ maxGap ∧
          manhattan a c ≤ maxGap ∧ manhattan b c ≤ maxGap
      · rw [if_pos hg]
        obtain ⟨g1, g2, g3, _, _, _⟩ := hg
        have hmem : ∀ x ∈ [a, b, c], x ∈ candidates := by
          intro x hx
          have hx' : x ∈ pickCells (shuffleList (rand attempt) candidates) [] := by
            rw [hch]; exact hx
          rcases pickCells_subset _ _ _ hx' with h1 | h1
          · exact absurd h1 (List.not_mem_nil x)
          · exact shuffleList_mem _ _ _ h1
        have hne : ∀ x y : Cell, minDistance ≤ manhattan x y → x ≠ y := by
          intro x y hd heq
          subst heq
          rw [manhattan_self] at hd
          norm_num [minDistance] at hd
        refine ⟨rfl, ?_, ?_⟩
        · exact List.Pairwise.cons
            (by
              intro z hz
              rcases List.mem_cons.mp hz with rfl | hz2
              · exact ⟨hne a z g1, g1⟩
              · rw [List.mem_singleton.mp hz2]
                exact ⟨hne a c g2, g2⟩)
            (List.Pairwise.cons
              (by
                intro z hz
                rw [List.mem_singleton.mp hz]
                exact ⟨hne b c g3, g3⟩)
              (List.pairwise_singleton _ c))
        · intro rc hrc
          exact hcand rc (hmem rc hrc)
      · rw [if_neg hg]
        exact ih (attempt + 1)
    · exact ih (attempt + 1)

set_option maxRecDepth 10000 in
/-- C6.  Locked-cell generation postcondition: for every randomness stream,
`generateLockedCells` returns exactly 3 pairwise-distinct in-bounds cells
whose pairwise Manhattan distances are at least `minDistance` (= 5), and the
deterministic center-relative fallback triangle used when the retry budget
is exhausted itself satisfies the same postcondition — the operation always
succeeds. -/
theorem generateLockedCells_spec_thm (rand : Nat → Nat → Nat) :
    lockedSpec (generateLockedCells rand) ∧ lockedSpec fallbackLocked := by
  constructor
  · exact lockedLoop_spec rand candidatesArr candidatesArr_bounds maxAttempts 0
  · unfold lockedSpec
    decide

/-- C7.  Matchmaking symmetry: the candidate-acceptance test used inside
`findMatch`'s scan is symmetric in the two queued participants — the pair's
allowed tolerance is the larger of the two participants' own wait-time
tolerances, so A can match B iff B can match A at the same evaluation time;
and the acceptance condition is exactly
`|eloA − eloB| ≤ max(tolerance(waitA), tolerance(waitB))`. -/
theorem findMatch_acceptance_symmetric (now : Int) (a b : WaitingEntry) :
    canMatch now a b = canMatch now b a ∧
    (canMatch now a b = true ↔
      |eloOf a - eloOf b| ≤
        max (getDeltaForWait (waitSecOf now a)) (getDeltaForWait (waitSecOf now b))) := by
  constructor
  · unfold canMatch
    rw [abs_sub_comm, max_comm]
  · simp [canMatch]

/-- C8.  ELO update: the K-factor is 40 below 30 games played and 32 from 30
on, computed from each participant's own count; a decided match updates both
ratings with `round(old + K * (score − expected))` from the two pre-match
ratings; in particular 1200 (10 games) beating 1200 (10 games) yields
1220 / 1180, and independence of the K-factors is visible when the winner
has 40 games played instead (1216 / 1180). -/
theorem elo_update_spec_thm :
    (∀ n : Nat, n < 30 → getKFactor n = 40) ∧
    (∀ n : Nat, 30 ≤ n → getKFactor n = 32) ∧
    (∀ uA uB : EloUser, updateEloForMatch uA uB true false false =
      some (newRating (beforeOf uA) (beforeOf uB) 1 (getKFactor (uA.gamesPlayed.getD 0)),
            newRating (beforeOf uB) (beforeOf uA) 0 (getKFactor (uB.gamesPlayed.getD 0)))) ∧
    updateEloForMatch ⟨some 1200, some 10⟩ ⟨some 1200, some 10⟩ true false false =
      some (1220, 1180) ∧
    updateEloForMatch ⟨some 1200, some 40⟩ ⟨some 1200, some 10⟩ true false false =
      some (1216, 1180) := by
  have hexp : expectedRating ((1200 : Int) : ℝ) ((1200 : Int) : ℝ) = 1 / 2 := by
    unfold expectedRating
    rw [show (((1200 : Int) : ℝ) - ((1200 : Int) : ℝ)) / 400 = 0 by norm_num, Real.rpow_zero]
    norm_num
  have hr1 : newRating ((1200 : Int) : ℝ) ((1200 : Int) : ℝ) 1 40 = 1220 := by
    unfold newRating
    rw [hexp, show ((1200 : Int) : ℝ) + 40 * (1 - 1 / 2) = ((1220 : Int) : ℝ) by norm_num,
      round_intCast]
  have hr0 : newRating ((1200 : Int) : ℝ) ((1200 : Int) : ℝ) 0 40 = 1180 := by
    unfold newRating
    rw [hexp, show ((1200 : Int) : ℝ) + 40 * (0 - 1 / 2) = ((1180 : Int) : ℝ) by norm_num,
      round_intCast]
  have hr32 : newRating ((1200 : Int) : ℝ) ((1200 : Int) : ℝ) 1 32 = 1216 := by
    unfold newRating
    rw [hexp, show ((1200 : Int) : ℝ) + 32 * (1 - 1 / 2) = ((1216 : Int) : ℝ) by norm_num,
      round_intCast]
  refine ⟨?_, ?_, ?_, ?_, ?_⟩
  · intro n h
    unfold getKFactor
    rw [if_pos h]
  · intro n h
    unfold getKFactor
    rw [if_neg (by omega)]
  · intro uA uB
    rfl
  · show some (newRating ((1200 : Int) : ℝ) ((1200 : Int) : ℝ) 1 (getKFactor 10),
      newRating ((1200 : Int) : ℝ) ((1200 : Int) : ℝ) 0 (getKFactor 10)) = some (1220, 1180)
    rw [show getKFactor 10 = 40 from rfl, hr1, hr0]
  · show some (newRating ((1200 : Int) : ℝ) ((1200 : Int) : ℝ) 1 (getKFactor 40),
      newRating ((1200 : Int) : ℝ) ((1200 : Int) : ℝ) 0 (getKFactor 10)) = some (1216, 1180)
    rw [show getKFactor 40 = 32 from rfl, show getKFactor 10 = 40 from rfl, hr32, hr0]

set_option maxRecDepth 40000 in
set_option maxHeartbeats 1000000 in
/-- C9.  `makeMove` performs no bounds check on the coordinates: in the
concrete reachable playing room `gRound1G`, with the in-turn player, a row
outside the 17x17 board reaches the unguarded `board[row][col]` read with
`board[row]` undefined and the call throws a `TypeError` (modelled as
`.thrown`) instead of returning any structured `{ error: .. }` result. -/
theorem makeMove_bounds_typeError :
    gRound1G.status = "playing" ∧
    resolvePlayer gRound1G "s1" = some gRound1G.player1 ∧
    gRound1G.currentTurn = gRound1G.player1.symbol ∧
    (makeMove (some gRound1G) "s1" 17 0).1 = .thrown ∧
    (makeMove (some gRound1G) "s1" (-1) 3).1 = .thrown :=
  ⟨rfl, rfl, rfl, rfl, rfl⟩

/-- C10.  `joinRoom` checks only existence and `waiting` status, not that
slot 2 is free: joining a waiting room whose player-2 slot is already
occupied silently replaces the occupant with the new joiner and returns the
room instead of failing with a room-full error. -/
theorem joinRoom_overwrites_player2 (g : GameState) (q : PlayerRec) (p3 : PlayerInput)
    (hst : g.status = "waiting") (hq : g.player2 = some q) :
    joinRoom (some g) p3 =
      some { g with player2 := some ⟨p3.id, p3.socketId, "O", p3.name, p3.avatar⟩ } := by
  simp [joinRoom, hst]

set_option maxRecDepth 40000 in
set_option maxHeartbeats 1000000 in
/-- C10 witness: the concrete room `gJoinedG` is still waiting with "s2" in
slot 2; a third joiner "s3" replaces "s2" and the join succeeds. -/
theorem joinRoom_overwrites_player2_witness :
    (gJoinedG.status = "waiting" ∧ gJoinedG.player2 = some ⟨"s2", "s2", "O", "s2", none⟩) ∧
    joinRoom (some gJoinedG) (pIn "s3") =
      some { gJoinedG with player2 := some ⟨(pIn "s3").id, (pIn "s3").socketId, "O",
        (pIn "s3").name, (pIn "s3").avatar⟩ } :=
  ⟨⟨rfl, rfl⟩,
    joinRoom_overwrites_player2 gJoinedG ⟨"s2", "s2", "O", "s2", none⟩ (pIn "s3") rfl rfl⟩

end ZCaro
